import Mathlib

/-!
Verification of the `ledcontrol` AVR firmware (controller variant, the files
under `src/controller/`): a shallow embedding in Lean 4 of its light state,
command dispatcher (`main.c`), fade engine (`main.c` / `fade.h`), HSV
projection (`light.c`) and UART transport (`uart.c`), together with theorems
checking the specification's claims against this embedding.

Modelling conventions:
* C strings and buffers are modelled as `List Nat` of byte values
  (e.g. the command line `pwr 1` is `[112, 119, 114, 32, 49]`).
* C `int` values are modelled as `Int`.  `atoi` models the ATmega328p
  behaviour exactly: the scanned value saturates to the 32-bit `long` of
  `strtol` and is then wrapped into the 16-bit `int` range.  The
  `light_status` fields only ever hold values that passed the `0..max`
  range check, where `Int` and the 16-bit `int` agree.
* The C `float` arithmetic of the fade engine and of `light.c` is modelled by
  exact rational arithmetic (`ℚ`); the implicit C conversion from `float` to
  `uint8_t` is truncation toward zero (`ratTrunc`).  On all inputs appearing
  in the claims the exact-rational computation and IEEE single-precision
  computation coincide.
* The global mutable state of the firmware (the `light` global, the `static`
  locals of `fade_light`, the PWM output registers, the UART buffers and
  flags) is threaded explicitly through the functions as structures.
-/

/-- `rgb` struct of `light.h`: one 8-bit value per color channel.
Values are `Nat`s kept in `0..255` by construction. -/
structure rgb where
  r : Nat
  g : Nat
  b : Nat
deriving DecidableEq, Repr

/-- `light_status` struct of `light.h` (hue-capable build, the `#if 1`
blocks of `light.h`/`main.c` enabled): the desired (target) state of the
light.  All four fields are C `int`s. -/
structure light_status where
  power : Int
  value : Int
  hue : Int
  saturation : Int
deriving DecidableEq, Repr

/-- The `static` locals of `fade_light` in `main.c`: the remaining step
counter and the colors captured at the last arming of a fade. -/
structure FadeState where
  step : Nat
  prev : rgb
  next : rgb
deriving DecidableEq, Repr

/-- The state visible to the dispatcher and fade engine: the `light` global
(`light.c`), the fade engine's statics and the PWM output registers
(`OCR0B`/`OCR2B`/`OCR0A`, read back by `pwm_get_rgb`). -/
structure Machine where
  light : light_status
  fade : FadeState
  pwm : rgb
deriving DecidableEq, Repr

/-- `UART_BUFFER_SIZE` from `uart.h`. -/
def UART_BUFFER_SIZE : Nat := 32

/-- `FADE_STEPS` from `fade.h`.  The macro expands to the `double` literal
`255.0`; assigning it to the `uint8_t` step counter stores `255`. -/
def FADE_STEPS : Nat := 255

/-- Truncation toward zero of a rational, the C conversion from a
floating-point value to an integer type (for the values in range). -/
def ratTrunc (q : ℚ) : Int :=
  if q < 0 then -(Int.floor (-q)) else Int.floor q

/-- One channel of the interpolation `prev + ((next - prev) * fade)` in
`fade_light`, with the exact-rational model of the C float arithmetic and
the truncating conversion to the `uint8_t` parameter of `pwm_set_rgb`. -/
def interp (p n : Nat) (fade : ℚ) : Nat :=
  (ratTrunc ((p : ℚ) + ((n : ℚ) - (p : ℚ)) * fade)).toNat

/-- The arming step of `fade_light` (`main.c` lines 60-64): capture the
current PWM output as `prev`, the projected light state as `next`, and reset
the counter to `FADE_STEPS`. -/
def fade_arm (target : rgb) (pwm : rgb) : FadeState :=
  { step := FADE_STEPS, prev := pwm, next := target }

/-- `fade_light` from `main.c`.  `target` stands for the value of
`light_rgb()` at the moment of the call (the C function reads the global
light state; the caller passes the projection of the current light state).
Returns the new statics and the new PWM output registers. -/
def fade_light (set : Bool) (target : rgb) (fs0 : FadeState) (pwm : rgb) :
    FadeState × rgb :=
  let fs := if set then fade_arm target pwm else fs0
  if 0 < fs.step then
    let stepN := fs.step - 1
    let fade : ℚ := ((FADE_STEPS : ℚ) - (stepN : ℚ)) / (FADE_STEPS : ℚ)
    (⟨stepN, fs.prev, fs.next⟩,
      ⟨interp fs.prev.r fs.next.r fade, interp fs.prev.g fs.next.g fade,
        interp fs.prev.b fs.next.b fade⟩)
  else (fs, pwm)

/-- `make_rgb` from `light.c`: channel percentages scaled by 255 and
converted (truncated) to `uint8_t`. -/
def make_rgb (r g b : ℚ) : rgb :=
  ⟨(ratTrunc (r * 255)).toNat, (ratTrunc (g * 255)).toNat,
    (ratTrunc (b * 255)).toNat⟩

/-- `hsv2rgb` from `light.c` (the `LED_RGB` build), float arithmetic
modelled as exact rationals. -/
def hsv2rgb (h s v : ℚ) : rgb :=
  if s = 0 then make_rgb v v v
  else
    let h6 := h / 60
    let i : Int := Int.floor h6
    let f : ℚ := h6 - (i : ℚ)
    let p := v * (1 - s)
    let q := v * (1 - s * f)
    let t := v * (1 - s * (1 - f))
    if i = 0 then make_rgb v t p
    else if i = 1 then make_rgb q v p
    else if i = 2 then make_rgb p v t
    else if i = 3 then make_rgb p q v
    else if i = 4 then make_rgb t p v
    else make_rgb v p q

/-- `light_rgb` from `light.c` (the `LED_RGB` build): project the light
state to an RGB color; black when the light is powered off. -/
def light_rgb (l : light_status) : rgb :=
  if l.power = 0 then make_rgb 0 0 0
  else hsv2rgb (l.hue : ℚ) ((l.saturation : ℚ) / 100) ((l.value : ℚ) / 100)

/-- C `isspace` on a byte. -/
def isspaceB (b : Nat) : Bool := decide (b = 32 ∨ (9 ≤ b ∧ b ≤ 13))

/-- C `isdigit` on a byte. -/
def isdigitB (b : Nat) : Bool := decide (48 ≤ b ∧ b ≤ 57)

/-- The digit-accumulation loop shared by `atoi`: value of the longest
leading run of decimal digits (0 when there is none). -/
def digitsToNat (s : List Nat) : Nat :=
  (s.takeWhile isdigitB).foldl (fun a b => 10 * a + (b - 48)) 0

/-- The exact integer value scanned by `atoi`: skip leading whitespace, an
optional sign, then the leading run of digits; no digits yields 0. -/
def atoi_scan (s : List Nat) : Int :=
  let t := s.dropWhile isspaceB
  if t.head? = some 45 then -(digitsToNat t.tail : Int)
  else if t.head? = some 43 then (digitsToNat t.tail : Int)
  else (digitsToNat t : Int)

/-- `strtol`'s saturation to the 32-bit `long` of avr-gcc (C99 7.20.1.4). -/
def clamp_long (v : Int) : Int :=
  if v < -2147483648 then -2147483648
  else if 2147483647 < v then 2147483647
  else v

/-- The implementation-defined avr-gcc conversion from `long` to the 16-bit
`int`: reduction modulo 2^16 into `-32768..32767` (two's complement). -/
def wrap_int16 (v : Int) : Int := (v + 32768) % 65536 - 32768

/-- C `atoi` on the ATmega328p (as used in `parse_command_int`): avr-libc
implements it as `(int) strtol(s, 0, 10)`, so the scanned value saturates to
the 32-bit `long` range and is then wrapped into the 16-bit `int` range.
An argument such as `65636` therefore reads back as `100` on the hardware. -/
def atoi (s : List Nat) : Int := wrap_int16 (clamp_long (atoi_scan s))

/-- Little-endian decimal digit bytes of `n`; `fuel ≥ n` makes the
recursion structural. -/
def decDigits (fuel n : Nat) : List Nat :=
  match fuel, n with
  | _, 0 => []
  | 0, _ => []
  | f + 1, m + 1 => (48 + (m + 1) % 10) :: decDigits f ((m + 1) / 10)

/-- Canonical decimal byte string of a natural number (what C's `%d`
prints for nonnegative values, and the text a client sends in `P v`). -/
def decBytes (n : Nat) : List Nat :=
  if n = 0 then [48] else (decDigits n n).reverse

/-- Canonical decimal byte string of an integer (C `%d`). -/
def decBytesInt (v : Int) : List Nat :=
  if v < 0 then 45 :: decBytes v.natAbs else decBytes v.toNat

/-- The `snprintf(tmp, UART_BUFFER_SIZE, "%s %d\n", cmd_set, *dst)` of
`parse_command_int`: the formatted reply, truncated to
`UART_BUFFER_SIZE - 1` bytes. -/
def snprintf_get (cmd : List Nat) (v : Int) : List Nat :=
  (cmd ++ 32 :: (decBytesInt v ++ [10])).take (UART_BUFFER_SIZE - 1)

/-- `is_command` from `main.c`:
`strncmp(command, buffer, strlen(command)) == 0`, i.e. `command` is a byte
prefix of `buffer`. -/
def is_command (buffer command : List Nat) : Bool :=
  command.isPrefixOf buffer

/-- `parse_command_int` from `main.c`.  Returns the C return value
(command recognized), the new value of `*dst`, and the reply string handed
to `uart_send` (if any).  The argument pointer `buffer + strlen(cmd_set) + 1`
is `buffer.drop (cmd_set.length + 1)`: `uart_receive` copies with `strncpy`,
which pads the 32-byte buffer with NUL bytes, so reading past the end of a
short line yields the empty string. -/
def parse_command_int (buffer cmd_set cmd_get : List Nat) (max : Int)
    (dst : Int) : Bool × Int × Option (List Nat) :=
  if is_command buffer cmd_set then
    let tmp := atoi (buffer.drop (cmd_set.length + 1))
    (true, if 0 ≤ tmp ∧ tmp ≤ max then tmp else dst, none)
  else if is_command buffer cmd_get then
    (true, dst, some (snprintf_get cmd_set dst))
  else
    (false, dst, none)

/-- Byte string of the setter command `pwr`. -/
def cmd_pwr : List Nat := [112, 119, 114]

/-- Byte string of the setter command `val`. -/
def cmd_val : List Nat := [118, 97, 108]

/-- Byte string of the setter command `hue`. -/
def cmd_hue : List Nat := [104, 117, 101]

/-- Byte string of the setter command `sat`. -/
def cmd_sat : List Nat := [115, 97, 116]

/-- Result of dispatching one received line: the new machine state, the
reply handed to `uart_send` (if any), and whether `fade_light(true)` was
invoked (a fade transition armed). -/
structure DispatchOut where
  machine : Machine
  reply : Option (List Nat)
  armed : Bool
deriving DecidableEq, Repr

/-- The tail of `parse_command` (`main.c` lines 213-218): after the parsing
chain produced the (possibly updated) light state `lnew` and an optional
reply, arm a new fade cycle unless the line starts with `'?'` (byte 63).
`buffer[0]` of the NUL-padded C buffer is `buffer.head?` (the empty line
reads the NUL terminator, which also differs from `'?'`). -/
def arm_after_parse (buffer : List Nat) (lnew : light_status) (m : Machine)
    (reply : Option (List Nat)) : DispatchOut :=
  if buffer.head? ≠ some 63 then
    let fp := fade_light true (light_rgb lnew) m.fade m.pwm
    ⟨⟨lnew, fp.1, fp.2⟩, reply, true⟩
  else
    ⟨⟨lnew, m.fade, m.pwm⟩, reply, false⟩

/-- `parse_command` from `main.c`, applied to one received line: the
first-match-wins chain over `pwr`, `val`, `hue`, `sat`, followed by the
fade-arming tail. -/
def parse_command (buffer : List Nat) (m : Machine) : DispatchOut :=
  let r1 := parse_command_int buffer cmd_pwr (63 :: cmd_pwr) 1 m.light.power
  if r1.1 then arm_after_parse buffer { m.light with power := r1.2.1 } m r1.2.2
  else
    let r2 := parse_command_int buffer cmd_val (63 :: cmd_val) 100 m.light.value
    if r2.1 then arm_after_parse buffer { m.light with value := r2.2.1 } m r2.2.2
    else
      let r3 := parse_command_int buffer cmd_hue (63 :: cmd_hue) 360 m.light.hue
      if r3.1 then arm_after_parse buffer { m.light with hue := r3.2.1 } m r3.2.2
      else
        let r4 :=
          parse_command_int buffer cmd_sat (63 :: cmd_sat) 100 m.light.saturation
        if r4.1 then
          arm_after_parse buffer { m.light with saturation := r4.2.1 } m r4.2.2
        else arm_after_parse buffer m.light m none

/-- A line matches one of the recognized command prefixes. -/
def recognized (buffer : List Nat) : Bool :=
  is_command buffer cmd_pwr || is_command buffer (63 :: cmd_pwr) ||
  is_command buffer cmd_val || is_command buffer (63 :: cmd_val) ||
  is_command buffer cmd_hue || is_command buffer (63 :: cmd_hue) ||
  is_command buffer cmd_sat || is_command buffer (63 :: cmd_sat)

/-- The initial machine state: the zero-initialized `light` global, the
zero-initialized fade statics, and cleared PWM registers. -/
def m0 : Machine := ⟨⟨0, 0, 0, 0⟩, ⟨0, ⟨0, 0, 0⟩, ⟨0, 0, 0⟩⟩, ⟨0, 0, 0⟩⟩

/-- The machine state with the light powered on (all other fields zero),
used to exhibit the `pwr on` behaviour. -/
def mPowerOn : Machine := ⟨⟨1, 0, 0, 0⟩, ⟨0, ⟨0, 0, 0⟩, ⟨0, 0, 0⟩⟩, ⟨0, 0, 0⟩⟩

/-- The declared bounds of the `light_status` fields. -/
def light_in_bounds (l : light_status) : Prop :=
  0 ≤ l.power ∧ l.power ≤ 1 ∧ 0 ≤ l.value ∧ l.value ≤ 100 ∧
  0 ≤ l.hue ∧ l.hue ≤ 360 ∧ 0 ≤ l.saturation ∧ l.saturation ≤ 100

instance (l : light_status) : Decidable (light_in_bounds l) := by
  unfold light_in_bounds; infer_instance

/-- Dispatch a sequence of received lines, starting from machine state `m`. -/
def dispatch_lines (lines : List (List Nat)) (m : Machine) : Machine :=
  lines.foldl (fun m b => (parse_command b m).machine) m

/-- The parameters of the protocol, with their command strings, their
maxima and the `light_status` field each one addresses. -/
inductive Param
  | pwr
  | val
  | hue
  | sat
deriving DecidableEq, Repr

/-- The setter command bytes of a parameter. -/
def Param.cmd : Param → List Nat
  | .pwr => cmd_pwr
  | .val => cmd_val
  | .hue => cmd_hue
  | .sat => cmd_sat

/-- The maximum admissible value of a parameter. -/
def Param.maxInt : Param → Int
  | .pwr => 1
  | .val => 100
  | .hue => 360
  | .sat => 100

/-- The maximum admissible value of a parameter, as a natural number. -/
def Param.maxNat : Param → Nat
  | .pwr => 1
  | .val => 100
  | .hue => 360
  | .sat => 100

/-- The `light_status` field addressed by a parameter. -/
def Param.get : Param → light_status → Int
  | .pwr => fun l => l.power
  | .val => fun l => l.value
  | .hue => fun l => l.hue
  | .sat => fun l => l.saturation

/-- State of the UART receive path (`uart.c`): the `uart_rx_buffer`
(32 bytes), the `static` cursor `uart_rx_cnt`, and `uart_rx_ready`. -/
structure UartRx where
  buf : List Nat
  cnt : Nat
  ready : Bool
deriving DecidableEq, Repr

/-- `ISR(USART_RX_vect)` from `uart.c`, receiving one byte `data`:
discard while a complete line is pending; a CR or LF byte NUL-terminates
the buffer at the cursor, sets the ready flag and resets the cursor;
otherwise store the byte if the cursor is below `UART_BUFFER_SIZE - 1`. -/
def usart_rx_isr (data : Nat) (s : UartRx) : UartRx :=
  if s.ready then s
  else if data = 13 ∨ data = 10 then
    { buf := s.buf.set s.cnt 0, cnt := 0, ready := true }
  else if s.cnt < UART_BUFFER_SIZE - 1 then
    { s with buf := s.buf.set s.cnt data, cnt := s.cnt + 1 }
  else s

/-- Deliver a byte stream to the receive interrupt, byte by byte. -/
def rx_feed (bytes : List Nat) (s : UartRx) : UartRx :=
  bytes.foldl (fun s d => usart_rx_isr d s) s

/-- The initial receive state: zero-initialized static buffer, cursor 0,
flag clear. -/
def rx0 : UartRx := ⟨List.replicate UART_BUFFER_SIZE 0, 0, false⟩

/-- State of the UART transmit path (`uart.c`): `uart_tx_ready`,
the `uart_tx_buffer` (32 bytes), the `UDRIE0` interrupt-enable bit, and the
`static` drain pointer `uart_tx_p` as an offset into the buffer. -/
structure UartTx where
  ready : Bool
  buf : List Nat
  udrie : Bool
  pos : Nat
deriving DecidableEq, Repr

/-- C `strncpy(dst, src, n)` writing a fresh `n`-byte destination: copy at
most `n` bytes of `src` (given without its terminating NUL) and pad the
remainder with NUL bytes. -/
def strncpy_model (src : List Nat) (n : Nat) : List Nat :=
  src.take n ++ List.replicate (n - src.length) 0

/-- `uart_send` from `uart.c`: fail immediately while a previous
transmission is draining; otherwise clear the ready flag, copy the string
into the transmit buffer and enable the `UDRE` interrupt. -/
def uart_send (src : List Nat) (s : UartTx) : Bool × UartTx :=
  if !s.ready then (false, s)
  else (true, ⟨false, strncpy_model src UART_BUFFER_SIZE, true, s.pos⟩)

/-- `ISR(USART_UDRE_vect)` from `uart.c`: read the byte at the drain
pointer; a NUL byte disarms the interrupt, resets the pointer and sets the
ready flag; any other byte is emitted (the returned `Option Nat`) and the
pointer advances.  Reads beyond the 32-byte buffer (possible in C when the
caller violates the termination invariant) read the surrounding
zero-initialized statics, modelled by `getD _ 0`. -/
def usart_udre_isr_tx (s : UartTx) : UartTx × Option Nat :=
  let data := s.buf.getD s.pos 0
  if data = 0 then (⟨true, s.buf, false, 0⟩, none)
  else (⟨s.ready, s.buf, s.udrie, s.pos + 1⟩, some data)

/-- The whole firmware state: both UART directions and the machine state. -/
structure Firmware where
  rx : UartRx
  tx : UartTx
  machine : Machine
deriving DecidableEq, Repr

/-- The receive ISR acting on the whole firmware state.  The body of
`ISR(USART_RX_vect)` references only `uart_rx_buffer`, `uart_rx_cnt` and
`uart_rx_ready`. -/
def firmware_rx_isr (data : Nat) (s : Firmware) : Firmware :=
  ⟨usart_rx_isr data s.rx, s.tx, s.machine⟩

/-- The transmit ISR acting on the whole firmware state.  The body of
`ISR(USART_UDRE_vect)` references only `uart_tx_buffer`, `uart_tx_p`,
`uart_tx_ready` and the UART registers. -/
def firmware_udre_isr (s : Firmware) : Firmware × Option Nat :=
  (⟨s.rx, (usart_udre_isr_tx s.tx).1, s.machine⟩, (usart_udre_isr_tx s.tx).2)

/-- The tick sequence of the testable fade scenario: black PWM output, a
fade to white armed on the first tick (the arming call of `fade_light`
performs the first step itself), then one `fade_light(false)` call per
main-loop iteration. -/
def c6run : Nat → FadeState × rgb
  | 0 => (⟨0, ⟨0, 0, 0⟩, ⟨0, 0, 0⟩⟩, ⟨0, 0, 0⟩)
  | n + 1 =>
    fade_light (decide (n = 0)) ⟨255, 255, 255⟩ (c6run n).1 (c6run n).2

/-! ### Helper lemmas: decimal byte strings and `atoi` -/

/-- Generic: `takeWhile` keeps a list all of whose elements satisfy `p`. -/
theorem takeWhile_all {p : Nat → Bool} :
    ∀ l : List Nat, (∀ b ∈ l, p b = true) → l.takeWhile p = l := by
  intro l
  induction l with
  | nil => intro _; rfl
  | cons a t ih =>
    intro h
    have ha : p a = true := h a (List.mem_cons_self a t)
    have ht := ih fun b hb => h b (List.mem_cons_of_mem a hb)
    simp [List.takeWhile_cons, ha, ht]

/-- Generic: `dropWhile` drops nothing from a list none of whose elements
satisfy `q`. -/
theorem dropWhile_none {q : Nat → Bool} :
    ∀ l : List Nat, (∀ b ∈ l, q b = false) → l.dropWhile q = l := by
  intro l h
  cases l with
  | nil => rfl
  | cons a t =>
    have ha : q a = false := h a (List.mem_cons_self a t)
    simp [List.dropWhile_cons, ha]

theorem decDigits_digits : ∀ f n, n ≤ f → ∀ b ∈ decDigits f n, 48 ≤ b ∧ b ≤ 57 := by
  intro f
  induction f with
  | zero =>
    intro n hn b hb
    interval_cases n
    simp [decDigits] at hb
  | succ f ih =>
    intro n hn b hb
    cases n with
    | zero => simp [decDigits] at hb
    | succ m =>
      simp only [decDigits, List.mem_cons] at hb
      rcases hb with hb | hb
      · subst hb
        constructor
        · omega
        · have : (m + 1) % 10 < 10 := Nat.mod_lt _ (by norm_num)
          omega
      · exact ih ((m + 1) / 10) (by omega) b hb

theorem decDigits_foldl : ∀ f n, n ≤ f → ∀ a : Nat,
    ((decDigits f n).reverse).foldl (fun x b => 10 * x + (b - 48)) a
      = a * 10 ^ (decDigits f n).length + n := by
  intro f
  induction f with
  | zero =>
    intro n hn a
    interval_cases n
    simp [decDigits]
  | succ f ih =>
    intro n hn a
    cases n with
    | zero => simp [decDigits]
    | succ m =>
      have hq : (m + 1) / 10 ≤ f := by
        have := Nat.div_lt_self (Nat.succ_pos m) (by norm_num : 1 < 10)
        omega
      simp only [decDigits, List.reverse_cons, List.foldl_append, List.foldl_cons,
        List.foldl_nil, List.length_cons]
      rw [ih ((m + 1) / 10) hq a]
      have hmod : (m + 1) % 10 < 10 := Nat.mod_lt _ (by norm_num)
      have hdm : 10 * ((m + 1) / 10) + (m + 1) % 10 = m + 1 := Nat.div_add_mod _ _
      have : 48 + (m + 1) % 10 - 48 = (m + 1) % 10 := by omega
      rw [this, pow_succ]
      ring_nf
      omega

theorem decBytes_ne_nil (n : Nat) : decBytes n ≠ [] := by
  unfold decBytes
  split
  · simp
  · next h =>
    cases n with
    | zero => exact absurd rfl h
    | succ m => simp [decDigits]

theorem decBytes_digits (n : Nat) : ∀ b ∈ decBytes n, 48 ≤ b ∧ b ≤ 57 := by
  intro b hb
  unfold decBytes at hb
  split at hb
  · simp at hb
    omega
  · rw [List.mem_reverse] at hb
    exact decDigits_digits n n le_rfl b hb

theorem digitsToNat_decBytes (n : Nat) : digitsToNat (decBytes n) = n := by
  unfold digitsToNat
  rw [takeWhile_all (decBytes n) (fun b hb => by
    have := decBytes_digits n b hb
    simp only [isdigitB, decide_eq_true_eq]
    exact this)]
  unfold decBytes
  split
  · next h => subst h; rfl
  · rw [decDigits_foldl n n le_rfl 0]; omega

theorem isspaceB_digit {b : Nat} (h : 48 ≤ b ∧ b ≤ 57) : isspaceB b = false := by
  simp only [isspaceB, decide_eq_false_iff_not]
  omega

theorem atoi_scan_all_digits (l : List Nat) (hne : l ≠ [])
    (h : ∀ b ∈ l, 48 ≤ b ∧ b ≤ 57) : atoi_scan l = (digitsToNat l : Int) := by
  unfold atoi_scan
  rw [dropWhile_none l (fun b hb => isspaceB_digit (h b hb))]
  cases l with
  | nil => exact absurd rfl hne
  | cons c t =>
    have hc := h c (List.mem_cons_self c t)
    rw [if_neg (by simp; omega), if_neg (by simp; omega)]

theorem wrap_int16_clamp_eq {v : Int} (h1 : -32768 ≤ v) (h2 : v ≤ 32767) :
    wrap_int16 (clamp_long v) = v := by
  unfold clamp_long wrap_int16
  rw [if_neg (by omega), if_neg (by omega)]
  omega

theorem atoi_decBytes (n : Nat) (hn : n ≤ 32767) :
    atoi (decBytes n) = (n : Int) := by
  unfold atoi
  rw [atoi_scan_all_digits (decBytes n) (decBytes_ne_nil n) (decBytes_digits n),
    digitsToNat_decBytes]
  exact wrap_int16_clamp_eq (by omega) (by omega)

theorem atoi_neg_decBytes (n : Nat) (hn : n ≤ 32768) :
    atoi (45 :: decBytes n) = -(n : Int) := by
  unfold atoi
  have hscan : atoi_scan (45 :: decBytes n) = -(n : Int) := by
    unfold atoi_scan
    have h45 : isspaceB 45 = false := by decide
    simp only [List.dropWhile_cons, h45, Bool.false_eq_true, if_false,
      List.head?_cons, Option.some.injEq, List.tail_cons]
    simp [digitsToNat_decBytes]
  rw [hscan]
  exact wrap_int16_clamp_eq (by omega) (by omega)

theorem atoi_decBytesInt (v : Int) (h1 : -32768 ≤ v) (h2 : v ≤ 32767) :
    atoi (decBytesInt v) = v := by
  unfold decBytesInt
  split
  · next h =>
    rw [atoi_neg_decBytes v.natAbs (by omega)]
    omega
  · next h =>
    rw [atoi_decBytes v.toNat (by omega)]
    omega

theorem decBytesInt_natCast (v : Nat) : decBytesInt (v : Int) = decBytes v := by
  unfold decBytesInt
  rw [if_neg (by omega), Int.toNat_natCast]

theorem decDigits_length : ∀ k f n, n ≤ f → n < 10 ^ k →
    (decDigits f n).length ≤ k := by
  intro k
  induction k with
  | zero =>
    intro f n _ hlt
    interval_cases n
    cases f <;> simp [decDigits]
  | succ k ih =>
    intro f n hn hlt
    cases f with
    | zero =>
      interval_cases n
      simp [decDigits]
    | succ f =>
      cases n with
      | zero => simp [decDigits]
      | succ m =>
        have hq : (m + 1) / 10 ≤ f := by
          have := Nat.div_lt_self (Nat.succ_pos m) (by norm_num : 1 < 10)
          omega
        have hql : (m + 1) / 10 < 10 ^ k := by
          rw [Nat.div_lt_iff_lt_mul (by norm_num : 0 < 10)]
          calc m + 1 < 10 ^ (k + 1) := hlt
            _ = 10 ^ k * 10 := by rw [pow_succ]
        simpa [decDigits] using ih f ((m + 1) / 10) hq hql

theorem decBytes_length (n k : Nat) (h1 : 1 ≤ k) (h2 : n < 10 ^ k) :
    (decBytes n).length ≤ k := by
  unfold decBytes
  split
  · simpa using h1
  · simpa using decDigits_length k n n le_rfl h2

/-! ### Helper lemmas: the dispatcher -/

theorem aap_light (b : List Nat) (l : light_status) (m : Machine)
    (r : Option (List Nat)) : (arm_after_parse b l m r).machine.light = l := by
  unfold arm_after_parse
  split <;> rfl

theorem aap_reply (b : List Nat) (l : light_status) (m : Machine)
    (r : Option (List Nat)) : (arm_after_parse b l m r).reply = r := by
  unfold arm_after_parse
  split <;> rfl

theorem aap_armed (b : List Nat) (l : light_status) (m : Machine)
    (r : Option (List Nat)) :
    (arm_after_parse b l m r).armed = decide (b.head? ≠ some 63) := by
  unfold arm_after_parse
  split
  · next h => simp [h]
  · next h => simp at h; simp [h]

theorem aap_fade (b : List Nat) (l : light_status) (m : Machine)
    (r : Option (List Nat)) :
    (arm_after_parse b l m r).machine.fade
      = if b.head? = some 63 then m.fade
        else (fade_light true (light_rgb l) m.fade m.pwm).1 := by
  unfold arm_after_parse
  split
  · next h => simp [h]
  · next h => simp at h; simp [h]

theorem aap_machine_q (b : List Nat) (l : light_status) (m : Machine)
    (r : Option (List Nat)) (h : b.head? = some 63) :
    (arm_after_parse b l m r).machine = ⟨l, m.fade, m.pwm⟩ := by
  unfold arm_after_parse
  simp [h]

theorem aap_congr (b1 b2 : List Nat) (l : light_status) (m : Machine)
    (r : Option (List Nat)) (h : b1.head? = b2.head?) :
    arm_after_parse b1 l m r = arm_after_parse b2 l m r := by
  unfold arm_after_parse
  rw [h]

theorem pci_fst (buffer cs cg : List Nat) (mx dst : Int) :
    (parse_command_int buffer cs cg mx dst).1
      = (is_command buffer cs || is_command buffer cg) := by
  unfold parse_command_int
  by_cases h1 : is_command buffer cs <;> by_cases h2 : is_command buffer cg <;>
    simp [h1, h2]

theorem pci_val_bounds (buffer cs cg : List Nat) (mx dst : Int)
    (h1 : 0 ≤ dst) (h2 : dst ≤ mx) :
    0 ≤ (parse_command_int buffer cs cg mx dst).2.1 ∧
      (parse_command_int buffer cs cg mx dst).2.1 ≤ mx := by
  unfold parse_command_int
  split
  · dsimp only
    split
    · next h => exact h
    · exact ⟨h1, h2⟩
  · split <;> exact ⟨h1, h2⟩

theorem dispatch_pwr (rest : List Nat) (m : Machine) :
    parse_command (112 :: 119 :: 114 :: rest) m
      = arm_after_parse (112 :: 119 :: 114 :: rest)
          { m.light with power :=
              (if 0 ≤ atoi (rest.drop 1) ∧ atoi (rest.drop 1) ≤ 1
                then atoi (rest.drop 1) else m.light.power) } m none := by
  unfold parse_command parse_command_int
  simp [is_command, cmd_pwr, List.isPrefixOf]

theorem dispatch_val (rest : List Nat) (m : Machine) :
    parse_command (118 :: 97 :: 108 :: rest) m
      = arm_after_parse (118 :: 97 :: 108 :: rest)
          { m.light with value :=
              (if 0 ≤ atoi (rest.drop 1) ∧ atoi (rest.drop 1) ≤ 100
                then atoi (rest.drop 1) else m.light.value) } m none := by
  unfold parse_command parse_command_int
  simp [is_command, cmd_pwr, cmd_val, List.isPrefixOf]

theorem dispatch_hue (rest : List Nat) (m : Machine) :
    parse_command (104 :: 117 :: 101 :: rest) m
      = arm_after_parse (104 :: 117 :: 101 :: rest)
          { m.light with hue :=
              (if 0 ≤ atoi (rest.drop 1) ∧ atoi (rest.drop 1) ≤ 360
                then atoi (rest.drop 1) else m.light.hue) } m none := by
  unfold parse_command parse_command_int
  simp [is_command, cmd_pwr, cmd_val, cmd_hue, List.isPrefixOf]

theorem dispatch_sat (rest : List Nat) (m : Machine) :
    parse_command (115 :: 97 :: 116 :: rest) m
      = arm_after_parse (115 :: 97 :: 116 :: rest)
          { m.light with saturation :=
              (if 0 ≤ atoi (rest.drop 1) ∧ atoi (rest.drop 1) ≤ 100
                then atoi (rest.drop 1) else m.light.saturation) } m none := by
  unfold parse_command parse_command_int
  simp [is_command, cmd_pwr, cmd_val, cmd_hue, cmd_sat, List.isPrefixOf]

theorem dispatch_qpwr (rest : List Nat) (m : Machine) :
    parse_command (63 :: 112 :: 119 :: 114 :: rest) m
      = ⟨m, some (snprintf_get cmd_pwr m.light.power), false⟩ := by
  unfold parse_command parse_command_int
  simp [is_command, cmd_pwr, List.isPrefixOf, arm_after_parse]

theorem dispatch_qval (rest : List Nat) (m : Machine) :
    parse_command (63 :: 118 :: 97 :: 108 :: rest) m
      = ⟨m, some (snprintf_get cmd_val m.light.value), false⟩ := by
  unfold parse_command parse_command_int
  simp [is_command, cmd_pwr, cmd_val, List.isPrefixOf, arm_after_parse]

theorem dispatch_qhue (rest : List Nat) (m : Machine) :
    parse_command (63 :: 104 :: 117 :: 101 :: rest) m
      = ⟨m, some (snprintf_get cmd_hue m.light.hue), false⟩ := by
  unfold parse_command parse_command_int
  simp [is_command, cmd_pwr, cmd_val, cmd_hue, List.isPrefixOf, arm_after_parse]

theorem dispatch_qsat (rest : List Nat) (m : Machine) :
    parse_command (63 :: 115 :: 97 :: 116 :: rest) m
      = ⟨m, some (snprintf_get cmd_sat m.light.saturation), false⟩ := by
  unfold parse_command parse_command_int
  simp [is_command, cmd_pwr, cmd_val, cmd_hue, cmd_sat, List.isPrefixOf,
    arm_after_parse]

/-! ### Helper lemmas: the fade engine -/

theorem ratTrunc_nonneg_eq_floor {q : ℚ} (h : 0 ≤ q) : ratTrunc q = Int.floor q := by
  unfold ratTrunc
  rw [if_neg (not_lt.mpr h)]

theorem interp_0_255_eq (q : ℚ) (k : Nat) (hq : (255 : ℚ) * q = (k : ℚ)) :
    interp 0 255 q = k := by
  unfold interp
  have h1 : ((0 : Nat) : ℚ) + (((255 : Nat) : ℚ) - ((0 : Nat) : ℚ)) * q = (k : ℚ) := by
    push_cast
    linarith
  rw [h1, ratTrunc_nonneg_eq_floor (by positivity), Int.floor_natCast,
    Int.toNat_natCast]

theorem interp_between (p n : Nat) (q : ℚ) (h0 : 0 ≤ q) (h1 : q ≤ 1) :
    min p n ≤ interp p n q ∧ interp p n q ≤ max p n := by
  unfold interp
  rcases le_total p n with hpn | hnp
  · have hd : (0 : ℚ) ≤ (n : ℚ) - (p : ℚ) := by
      rw [sub_nonneg]
      exact_mod_cast hpn
    have hxlow : (p : ℚ) ≤ (p : ℚ) + ((n : ℚ) - (p : ℚ)) * q :=
      le_add_of_nonneg_right (mul_nonneg hd h0)
    have hxhigh : (p : ℚ) + ((n : ℚ) - (p : ℚ)) * q ≤ (n : ℚ) := by
      have hmul : ((n : ℚ) - (p : ℚ)) * q ≤ ((n : ℚ) - (p : ℚ)) * 1 :=
        mul_le_mul_of_nonneg_left h1 hd
      linarith
    rw [ratTrunc_nonneg_eq_floor (le_trans (by positivity) hxlow)]
    have hfl : (p : Int) ≤ Int.floor ((p : ℚ) + ((n : ℚ) - (p : ℚ)) * q) := by
      rw [Int.le_floor]
      exact_mod_cast hxlow
    have hfh : Int.floor ((p : ℚ) + ((n : ℚ) - (p : ℚ)) * q) ≤ (n : Int) := by
      have := Int.floor_le_floor hxhigh
      rwa [Int.floor_natCast] at this
    constructor
    · have : min p n = p := Nat.min_eq_left hpn
      omega
    · have : max p n = n := Nat.max_eq_right hpn
      omega
  · have hd : (n : ℚ) - (p : ℚ) ≤ 0 := by
      rw [sub_nonpos]
      exact_mod_cast hnp
    have hxlow : (n : ℚ) ≤ (p : ℚ) + ((n : ℚ) - (p : ℚ)) * q := by
      have hmul : ((n : ℚ) - (p : ℚ)) * 1 ≤ ((n : ℚ) - (p : ℚ)) * q :=
        mul_le_mul_of_nonpos_left h1 hd
      linarith
    have hxhigh : (p : ℚ) + ((n : ℚ) - (p : ℚ)) * q ≤ (p : ℚ) := by
      have hmul : ((n : ℚ) - (p : ℚ)) * q ≤ 0 := mul_nonpos_of_nonpos_of_nonneg hd h0
      linarith
    rw [ratTrunc_nonneg_eq_floor (le_trans (by positivity) hxlow)]
    have hfl : (n : Int) ≤ Int.floor ((p : ℚ) + ((n : ℚ) - (p : ℚ)) * q) := by
      rw [Int.le_floor]
      exact_mod_cast hxlow
    have hfh : Int.floor ((p : ℚ) + ((n : ℚ) - (p : ℚ)) * q) ≤ (p : Int) := by
      have := Int.floor_le_floor hxhigh
      rwa [Int.floor_natCast] at this
    constructor
    · have : min p n = n := Nat.min_eq_right hnp
      omega
    · have : max p n = p := Nat.max_eq_left hnp
      omega


theorem fade_light_step (set : Bool) (target : rgb) (fs0 : FadeState)
    (pwm : rgb) (fs : FadeState) (hfs : fs = if set then fade_arm target pwm else fs0)
    (h : 0 < fs.step) :
    fade_light set target fs0 pwm
      = (⟨fs.step - 1, fs.prev, fs.next⟩,
          ⟨interp fs.prev.r fs.next.r
              (((FADE_STEPS : ℚ) - ((fs.step - 1 : Nat) : ℚ)) / (FADE_STEPS : ℚ)),
            interp fs.prev.g fs.next.g
              (((FADE_STEPS : ℚ) - ((fs.step - 1 : Nat) : ℚ)) / (FADE_STEPS : ℚ)),
            interp fs.prev.b fs.next.b
              (((FADE_STEPS : ℚ) - ((fs.step - 1 : Nat) : ℚ)) / (FADE_STEPS : ℚ))⟩) := by
  unfold fade_light
  rw [← hfs, if_pos h]

theorem fade_light_idle (set : Bool) (target : rgb) (fs0 : FadeState)
    (pwm : rgb) (fs : FadeState) (hfs : fs = if set then fade_arm target pwm else fs0)
    (h : fs.step = 0) :
    fade_light set target fs0 pwm = (fs, pwm) := by
  unfold fade_light
  rw [← hfs, if_neg (by omega)]

theorem c6run_succ (n : Nat) :
    c6run (n + 1)
      = fade_light (decide (n = 0)) ⟨255, 255, 255⟩ (c6run n).1 (c6run n).2 := rfl

theorem c6run_formula : ∀ k, 1 ≤ k → k ≤ 255 →
    c6run k = (⟨255 - k, ⟨0, 0, 0⟩, ⟨255, 255, 255⟩⟩, ⟨k, k, k⟩) := by
  intro k
  induction k with
  | zero => intro h1 _; exact absurd h1 (by norm_num)
  | succ n ih =>
    intro _ h2
    rcases Nat.eq_zero_or_pos n with h0 | hp
    · subst h0
      rw [c6run_succ]
      have hc1 : (c6run 0).1 = ⟨0, ⟨0, 0, 0⟩, ⟨0, 0, 0⟩⟩ := rfl
      have hc2 : (c6run 0).2 = ⟨0, 0, 0⟩ := rfl
      rw [hc1, hc2]
      rw [fade_light_step (decide (0 = 0)) ⟨255, 255, 255⟩
        ⟨0, ⟨0, 0, 0⟩, ⟨0, 0, 0⟩⟩ ⟨0, 0, 0⟩
        ⟨255, ⟨0, 0, 0⟩, ⟨255, 255, 255⟩⟩ (by decide) (by decide)]
      have hi : interp 0 255 (((FADE_STEPS : ℚ)
          - (((255 : Nat) - 1 : Nat) : ℚ)) / (FADE_STEPS : ℚ)) = 1 := by
        apply interp_0_255_eq
        norm_num [FADE_STEPS]
      dsimp only
      simp only [hi]
    · have hd : decide (n = 0) = false := by
        simp only [decide_eq_false_iff_not]
        omega
      rw [c6run_succ, hd, ih hp (by omega)]
      rw [fade_light_step false ⟨255, 255, 255⟩
        ⟨255 - n, ⟨0, 0, 0⟩, ⟨255, 255, 255⟩⟩ ⟨n, n, n⟩
        ⟨255 - n, ⟨0, 0, 0⟩, ⟨255, 255, 255⟩⟩ rfl (show 0 < 255 - n by omega)]
      dsimp only
      have hs : 255 - n - 1 = 255 - (n + 1) := by omega
      rw [hs]
      have hi : interp 0 255 (((FADE_STEPS : ℚ)
          - ((255 - (n + 1) : Nat) : ℚ)) / (FADE_STEPS : ℚ)) = n + 1 := by
        apply interp_0_255_eq
        rw [Nat.cast_sub (by omega : n + 1 ≤ 255)]
        simp only [FADE_STEPS]
        push_cast
        field_simp
      simp only [hi]

theorem c6run_ge : ∀ k, 255 ≤ k →
    c6run k = (⟨0, ⟨0, 0, 0⟩, ⟨255, 255, 255⟩⟩, ⟨255, 255, 255⟩) := by
  intro k
  induction k with
  | zero => intro h; exact absurd h (by norm_num)
  | succ n ih =>
    intro h
    rcases Nat.lt_or_ge n 255 with h1 | h2
    · have hn : n = 254 := by omega
      subst hn
      have hf := c6run_formula 254 (by norm_num) (by norm_num)
      norm_num at hf
      rw [c6run_succ, (by decide : decide ((254 : Nat) = 0) = false), hf]
      rw [fade_light_step false ⟨255, 255, 255⟩
        ⟨1, ⟨0, 0, 0⟩, ⟨255, 255, 255⟩⟩ ⟨254, 254, 254⟩
        ⟨1, ⟨0, 0, 0⟩, ⟨255, 255, 255⟩⟩ rfl (by norm_num)]
      dsimp only
      have hi : interp 0 255 (((FADE_STEPS : ℚ)
          - (((1 : Nat) - 1 : Nat) : ℚ)) / (FADE_STEPS : ℚ)) = 255 := by
        apply interp_0_255_eq
        norm_num [FADE_STEPS]
      simp only [hi]
    · rw [c6run_succ]
      have hd : decide (n = 0) = false := by
        simp only [decide_eq_false_iff_not]
        omega
      rw [hd, ih h2]
      exact fade_light_idle false ⟨255, 255, 255⟩
        ⟨0, ⟨0, 0, 0⟩, ⟨255, 255, 255⟩⟩ ⟨255, 255, 255⟩
        ⟨0, ⟨0, 0, 0⟩, ⟨255, 255, 255⟩⟩ rfl rfl

/-! ### Helper lemmas: the UART receive path -/

theorem set_append_len {α : Type} (as bs : List α) (x : α) :
    (as ++ bs).set as.length x = as ++ bs.set 0 x := by
  rw [List.set_append_right _ _ le_rfl, Nat.sub_self]

theorem rx_feed_cons (d : Nat) (bytes : List Nat) (s : UartRx) :
    rx_feed (d :: bytes) s = rx_feed bytes (usart_rx_isr d s) := rfl

theorem rx_feed_append (a b : List Nat) (s : UartRx) :
    rx_feed (a ++ b) s = rx_feed b (rx_feed a s) := by
  simp [rx_feed, List.foldl_append]

theorem rx_feed_fill : ∀ line pre : List Nat,
    (∀ b ∈ line, b ≠ 13 ∧ b ≠ 10) → pre.length + line.length ≤ 31 →
    rx_feed line ⟨pre ++ List.replicate (32 - pre.length) 0, pre.length, false⟩
      = ⟨(pre ++ line) ++ List.replicate (32 - (pre.length + line.length)) 0,
          pre.length + line.length, false⟩ := by
  intro line
  induction line with
  | nil => intro pre _ _; simp [rx_feed]
  | cons d rest ih =>
    intro pre h hlen
    have hd := h d (List.mem_cons_self d rest)
    rw [rx_feed_cons]
    have hisr : usart_rx_isr d
        ⟨pre ++ List.replicate (32 - pre.length) 0, pre.length, false⟩
        = ⟨(pre ++ [d]) ++ List.replicate (32 - (pre.length + 1)) 0,
            pre.length + 1, false⟩ := by
      unfold usart_rx_isr
      rw [if_neg (by simp)]
      rw [if_neg (by simp [hd.1, hd.2])]
      rw [if_pos (show pre.length < UART_BUFFER_SIZE - 1 by
        simp only [UART_BUFFER_SIZE]
        simp only [List.length_cons] at hlen
        omega)]
      have h32 : 32 - pre.length = (31 - pre.length) + 1 := by
        simp only [List.length_cons] at hlen
        omega
      have h31 : 31 - pre.length = 32 - (pre.length + 1) := by omega
      simp only [h32, List.replicate_succ, set_append_len, List.set_cons_zero, h31]
      simp [List.append_assoc]
    rw [hisr]
    have h2 : ∀ b ∈ rest, b ≠ 13 ∧ b ≠ 10 :=
      fun b hb => h b (List.mem_cons_of_mem d hb)
    have hlen2 : (pre ++ [d]).length = pre.length + 1 := by simp
    rw [← hlen2]
    rw [ih (pre ++ [d]) h2 (by
      simp only [List.length_append, List.length_cons, List.length_nil] at hlen ⊢
      omega)]
    have hcnt : (pre ++ [d]).length + rest.length
        = pre.length + (rest.length + 1) := by
      simp only [List.length_append, List.length_cons, List.length_nil]
      omega
    rw [hcnt]
    congr 1
    simp [List.append_assoc]

theorem rx_feed_buffer_full : ∀ rest buf : List Nat,
    (∀ b ∈ rest, b ≠ 13 ∧ b ≠ 10) →
    rx_feed rest ⟨buf, 31, false⟩ = ⟨buf, 31, false⟩ := by
  intro rest
  induction rest with
  | nil => intro buf _; rfl
  | cons d t ih =>
    intro buf h
    have hd := h d (List.mem_cons_self d t)
    rw [rx_feed_cons]
    have hisr : usart_rx_isr d ⟨buf, 31, false⟩ = ⟨buf, 31, false⟩ := by
      unfold usart_rx_isr
      rw [if_neg (by simp), if_neg (by simp [hd.1, hd.2]),
        if_neg (by norm_num [UART_BUFFER_SIZE])]
    rw [hisr, ih buf (fun b hb => h b (List.mem_cons_of_mem d hb))]

theorem rx_isr_inv (d : Nat) (s : UartRx)
    (h : s.buf.length = 32 ∧ s.cnt ≤ 31 ∧ 13 ∉ s.buf ∧ 10 ∉ s.buf) :
    (usart_rx_isr d s).buf.length = 32 ∧ (usart_rx_isr d s).cnt ≤ 31 ∧
      13 ∉ (usart_rx_isr d s).buf ∧ 10 ∉ (usart_rx_isr d s).buf := by
  obtain ⟨h1, h2, h3, h4⟩ := h
  unfold usart_rx_isr
  split
  · exact ⟨h1, h2, h3, h4⟩
  · split
    · refine ⟨by simpa using h1, Nat.zero_le _, ?_, ?_⟩
      · intro hmem
        rcases List.mem_or_eq_of_mem_set hmem with hm | he
        · exact h3 hm
        · exact absurd he (by norm_num)
      · intro hmem
        rcases List.mem_or_eq_of_mem_set hmem with hm | he
        · exact h4 hm
        · exact absurd he (by norm_num)
    · split
      · next hterm hcnt =>
        have hne : d ≠ 13 ∧ d ≠ 10 := by
          constructor <;> intro he <;> exact hterm (by omega)
        refine ⟨by simpa using h1, ?_, ?_, ?_⟩
        · show s.cnt + 1 ≤ 31
          simp only [UART_BUFFER_SIZE] at hcnt
          omega
        · intro hmem
          rcases List.mem_or_eq_of_mem_set hmem with hm | he
          · exact h3 hm
          · exact hne.1 he.symm
        · intro hmem
          rcases List.mem_or_eq_of_mem_set hmem with hm | he
          · exact h4 hm
          · exact hne.2 he.symm
      · exact ⟨h1, h2, h3, h4⟩

theorem rx_feed_inv : ∀ bytes : List Nat, ∀ s : UartRx,
    (s.buf.length = 32 ∧ s.cnt ≤ 31 ∧ 13 ∉ s.buf ∧ 10 ∉ s.buf) →
    ((rx_feed bytes s).buf.length = 32 ∧ (rx_feed bytes s).cnt ≤ 31 ∧
      13 ∉ (rx_feed bytes s).buf ∧ 10 ∉ (rx_feed bytes s).buf) := by
  intro bytes
  induction bytes with
  | nil => intro s h; exact h
  | cons d t ih =>
    intro s h
    rw [rx_feed_cons]
    exact ih (usart_rx_isr d s) (rx_isr_inv d s h)

/-! ### Helper lemmas: bounds preservation -/

theorem parse_command_bounds (b : List Nat) (m : Machine)
    (h : light_in_bounds m.light) :
    light_in_bounds (parse_command b m).machine.light := by
  obtain ⟨hp1, hp2, hv1, hv2, hh1, hh2, hs1, hs2⟩ := h
  unfold parse_command
  dsimp only
  split
  · rw [aap_light]
    have hb := pci_val_bounds b cmd_pwr (63 :: cmd_pwr) 1 m.light.power hp1 hp2
    exact ⟨hb.1, hb.2, hv1, hv2, hh1, hh2, hs1, hs2⟩
  · split
    · rw [aap_light]
      have hb := pci_val_bounds b cmd_val (63 :: cmd_val) 100 m.light.value hv1 hv2
      exact ⟨hp1, hp2, hb.1, hb.2, hh1, hh2, hs1, hs2⟩
    · split
      · rw [aap_light]
        have hb := pci_val_bounds b cmd_hue (63 :: cmd_hue) 360 m.light.hue hh1 hh2
        exact ⟨hp1, hp2, hv1, hv2, hb.1, hb.2, hs1, hs2⟩
      · split
        · rw [aap_light]
          have hb := pci_val_bounds b cmd_sat (63 :: cmd_sat) 100
            m.light.saturation hs1 hs2
          exact ⟨hp1, hp2, hv1, hv2, hh1, hh2, hb.1, hb.2⟩
        · rw [aap_light]
          exact ⟨hp1, hp2, hv1, hv2, hh1, hh2, hs1, hs2⟩

theorem dispatch_lines_bounds : ∀ lines : List (List Nat), ∀ m : Machine,
    light_in_bounds m.light → light_in_bounds (dispatch_lines lines m).light := by
  intro lines
  induction lines with
  | nil => intro m h; exact h
  | cons b t ih =>
    intro m h
    exact ih (parse_command b m).machine (parse_command_bounds b m h)

theorem parse_command_armed (b : List Nat) (m : Machine) :
    (parse_command b m).armed = decide (b.head? ≠ some 63) := by
  unfold parse_command
  dsimp only
  split
  · rw [aap_armed]
  · split
    · rw [aap_armed]
    · split
      · rw [aap_armed]
      · split
        · rw [aap_armed]
        · rw [aap_armed]

theorem parse_command_fade (b : List Nat) (m : Machine) :
    (parse_command b m).machine.fade
      = if b.head? = some 63 then m.fade
        else (fade_light true (light_rgb (parse_command b m).machine.light)
          m.fade m.pwm).1 := by
  unfold parse_command
  dsimp only
  split
  · rw [aap_fade, aap_light]
  · split
    · rw [aap_fade, aap_light]
    · split
      · rw [aap_fade, aap_light]
      · split
        · rw [aap_fade, aap_light]
        · rw [aap_fade, aap_light]

theorem parse_command_unrecognized (b : List Nat) (m : Machine)
    (h : recognized b = false) :
    (parse_command b m).machine.light = m.light ∧
      (parse_command b m).reply = none := by
  unfold recognized at h
  simp only [Bool.or_eq_false_iff] at h
  obtain ⟨⟨⟨⟨⟨⟨⟨c1, c2⟩, c3⟩, c4⟩, c5⟩, c6⟩, c7⟩, c8⟩ := h
  unfold parse_command
  have h1 : (parse_command_int b cmd_pwr (63 :: cmd_pwr) 1 m.light.power).1 = false := by
    rw [pci_fst, c1, c2]
    rfl
  have h2 : (parse_command_int b cmd_val (63 :: cmd_val) 100 m.light.value).1 = false := by
    rw [pci_fst, c3, c4]
    rfl
  have h3 : (parse_command_int b cmd_hue (63 :: cmd_hue) 360 m.light.hue).1 = false := by
    rw [pci_fst, c5, c6]
    rfl
  have h4 : (parse_command_int b cmd_sat (63 :: cmd_sat) 100
      m.light.saturation).1 = false := by
    rw [pci_fst, c7, c8]
    rfl
  dsimp only
  rw [if_neg (by rw [h1]; exact Bool.false_ne_true),
    if_neg (by rw [h2]; exact Bool.false_ne_true),
    if_neg (by rw [h3]; exact Bool.false_ne_true),
    if_neg (by rw [h4]; exact Bool.false_ne_true)]
  exact ⟨aap_light b m.light m none, aap_reply b m.light m none⟩

theorem isPrefixOf_append_self : ∀ c y : List Nat, c.isPrefixOf (c ++ y) = true := by
  intro c y
  induction c with
  | nil => simp [List.isPrefixOf]
  | cons a t ih => simp [List.isPrefixOf]

theorem pci_setter (cmd cg : List Nat) (mx dst : Int) (arg : List Nat) :
    parse_command_int (cmd ++ 32 :: arg) cmd cg mx dst
      = (true, if 0 ≤ atoi arg ∧ atoi arg ≤ mx then atoi arg else dst, none) := by
  unfold parse_command_int
  rw [if_pos (by simp [is_command, isPrefixOf_append_self])]
  have hsplit : cmd ++ 32 :: arg = (cmd ++ [32]) ++ arg := by simp
  have hlen : (cmd ++ [32]).length = cmd.length + 1 := by simp
  rw [hsplit, List.drop_left' hlen]

/-! ### Claim theorems -/

/-- C1 counterexample: the line `foo` matches none of the recognized command
prefixes, yet dispatching it arms a fade transition (the claim, as stated,
requires that no fade be armed for such a line).  `parse_command` guards the
`fade_light(true)` call only by `buffer[0] != '?'`. -/
theorem C1_counterexample :
    recognized [102, 111, 111] = false ∧
      (parse_command [102, 111, 111] m0).armed = true := by
  constructor
  · decide
  · rw [parse_command_armed]
    decide

/-- C1 (amended): a fade transition is armed exactly when the received line
does not begin with `'?'` (byte 63): every setter line arms a fade whose
target is the projection of the post-mutation light state, a getter query
never arms one, and a line matching no recognized prefix changes no light
state and produces no reply — but it still arms a fade (targeting the
unchanged state) whenever it does not begin with `'?'`. -/
theorem C1_fade_arming : ∀ (buffer : List Nat) (m : Machine),
    (parse_command buffer m).armed = decide (buffer.head? ≠ some 63) ∧
    (parse_command buffer m).machine.fade
      = (if buffer.head? = some 63 then m.fade
         else (fade_light true (light_rgb (parse_command buffer m).machine.light)
           m.fade m.pwm).1) ∧
    (recognized buffer = false →
      (parse_command buffer m).machine.light = m.light ∧
        (parse_command buffer m).reply = none) :=
  fun buffer m =>
    ⟨parse_command_armed buffer m, parse_command_fade buffer m,
      fun h => parse_command_unrecognized buffer m h⟩

/-- C1 witness: the amended claim evaluated on the unrecognized line `foo`
and the initial machine state. -/
theorem C1_fade_arming_witness :
    (parse_command [102, 111, 111] m0).armed = true ∧
      (parse_command [102, 111, 111] m0).machine.light = m0.light ∧
      (parse_command [102, 111, 111] m0).reply = none := by
  have h := C1_fade_arming [102, 111, 111] m0
  refine ⟨?_, (h.2.2 (by decide)).1, (h.2.2 (by decide)).2⟩
  rw [h.1]
  decide

/-- C2 counterexample: dispatching `pwr on` while the light is on yields
power 0 (off), not 1 (on) as the claim states: `atoi("on")` is 0, which
passes the `0 <= tmp <= 1` range check and is stored. -/
theorem C2_counterexample :
    (parse_command [112, 119, 114, 32, 111, 110] mPowerOn).machine.light.power
        = 0 ∧ (0 : Int) ≠ 1 := by
  constructor
  · decide
  · decide

/-- C2 (amended): the integer forms work as specified — `pwr 0` sets power
off and `pwr 1` sets power on — but the textual forms are not parsed
specially: both `pwr on` and `pwr off` run through `atoi`, which yields 0 on
either suffix, so both set power off.  There is no way to switch power on
with a textual suffix. -/
theorem C2_power_setter_forms : ∀ m : Machine,
    (parse_command [112, 119, 114, 32, 48] m).machine.light.power = 0 ∧
    (parse_command [112, 119, 114, 32, 49] m).machine.light.power = 1 ∧
    (parse_command [112, 119, 114, 32, 111, 110] m).machine.light.power = 0 ∧
    (parse_command [112, 119, 114, 32, 111, 102, 102] m).machine.light.power
      = 0 := by
  intro m
  refine ⟨?_, ?_, ?_, ?_⟩
  · rw [dispatch_pwr [32, 48] m, aap_light]
    have ha : atoi [48] = 0 := by decide
    simp [ha]
  · rw [dispatch_pwr [32, 49] m, aap_light]
    have ha : atoi [49] = 1 := by decide
    simp [ha]
  · rw [dispatch_pwr [32, 111, 110] m, aap_light]
    have ha : atoi [111, 110] = 0 := by decide
    simp [ha]
  · rw [dispatch_pwr [32, 111, 102, 102] m, aap_light]
    have ha : atoi [111, 102, 102] = 0 := by decide
    simp [ha]

/-- C3: starting from the all-zero initial state, after any sequence of
received command lines every `light_status` field is within its declared
bound (power 0..1, value 0..100, hue 0..360, saturation 0..100), and
neither interrupt handler ever writes a `light_status` field. -/
theorem C3_bounds_invariant : ∀ (lines : List (List Nat)) (d : Nat) (s : Firmware),
    light_in_bounds (dispatch_lines lines m0).light ∧
    (firmware_rx_isr d s).machine.light = s.machine.light ∧
    (firmware_udre_isr s).1.machine.light = s.machine.light :=
  fun lines d s =>
    ⟨dispatch_lines_bounds lines m0 (by decide), rfl, rfl⟩

theorem snprintf_small (cmd : List Nat) (v : Nat) (hcmd : cmd.length = 3)
    (hv : v ≤ 360) :
    snprintf_get cmd (v : Int) = cmd ++ 32 :: (decBytes v ++ [10]) := by
  unfold snprintf_get
  rw [decBytesInt_natCast]
  apply List.take_of_length_le
  have hlen := decBytes_length v 3 (by norm_num) (by omega)
  simp [UART_BUFFER_SIZE, hcmd]
  omega

/-- C4: for every parameter `P` with maximum `M` and every `v ≤ M`,
dispatching the setter line `P v` produces no reply, and dispatching the
getter line `?P` right after produces exactly one reply, the byte string
`P v\n` — the target value, read from the light state and not from the
fading PWM output. -/
theorem C4_roundtrip : ∀ (P : Param) (v : Nat) (m : Machine), v ≤ P.maxNat →
    (parse_command (P.cmd ++ 32 :: decBytes v) m).reply = none ∧
    (parse_command (63 :: P.cmd)
        (parse_command (P.cmd ++ 32 :: decBytes v) m).machine).reply
      = some (P.cmd ++ 32 :: (decBytes v ++ [10])) := by
  intro P v m hv
  cases P with
  | pwr =>
    simp only [Param.maxNat] at hv
    have ha : atoi ((32 :: decBytes v).drop 1) = (v : Int) := by
      simpa using atoi_decBytes v (by omega)
    simp only [Param.cmd, cmd_pwr, List.cons_append, List.nil_append]
    rw [dispatch_pwr (32 :: decBytes v) m]
    have hcond : 0 ≤ atoi ((32 :: decBytes v).drop 1) ∧
        atoi ((32 :: decBytes v).drop 1) ≤ 1 := by
      rw [ha]
      exact ⟨Int.natCast_nonneg v, by exact_mod_cast hv⟩
    refine ⟨aap_reply _ _ _ _, ?_⟩
    rw [dispatch_qpwr [] _]
    dsimp only
    rw [aap_light]
    dsimp only
    rw [if_pos hcond, ha, snprintf_small cmd_pwr v rfl (by omega)]
    simp [cmd_pwr]
  | val =>
    simp only [Param.maxNat] at hv
    have ha : atoi ((32 :: decBytes v).drop 1) = (v : Int) := by
      simpa using atoi_decBytes v (by omega)
    simp only [Param.cmd, cmd_val, List.cons_append, List.nil_append]
    rw [dispatch_val (32 :: decBytes v) m]
    have hcond : 0 ≤ atoi ((32 :: decBytes v).drop 1) ∧
        atoi ((32 :: decBytes v).drop 1) ≤ 100 := by
      rw [ha]
      exact ⟨Int.natCast_nonneg v, by exact_mod_cast hv⟩
    refine ⟨aap_reply _ _ _ _, ?_⟩
    rw [dispatch_qval [] _]
    dsimp only
    rw [aap_light]
    dsimp only
    rw [if_pos hcond, ha, snprintf_small cmd_val v rfl (by omega)]
    simp [cmd_val]
  | hue =>
    simp only [Param.maxNat] at hv
    have ha : atoi ((32 :: decBytes v).drop 1) = (v : Int) := by
      simpa using atoi_decBytes v (by omega)
    simp only [Param.cmd, cmd_hue, List.cons_append, List.nil_append]
    rw [dispatch_hue (32 :: decBytes v) m]
    have hcond : 0 ≤ atoi ((32 :: decBytes v).drop 1) ∧
        atoi ((32 :: decBytes v).drop 1) ≤ 360 := by
      rw [ha]
      exact ⟨Int.natCast_nonneg v, by exact_mod_cast hv⟩
    refine ⟨aap_reply _ _ _ _, ?_⟩
    rw [dispatch_qhue [] _]
    dsimp only
    rw [aap_light]
    dsimp only
    rw [if_pos hcond, ha, snprintf_small cmd_hue v rfl (by omega)]
    simp [cmd_hue]
  | sat =>
    simp only [Param.maxNat] at hv
    have ha : atoi ((32 :: decBytes v).drop 1) = (v : Int) := by
      simpa using atoi_decBytes v (by omega)
    simp only [Param.cmd, cmd_sat, List.cons_append, List.nil_append]
    rw [dispatch_sat (32 :: decBytes v) m]
    have hcond : 0 ≤ atoi ((32 :: decBytes v).drop 1) ∧
        atoi ((32 :: decBytes v).drop 1) ≤ 100 := by
      rw [ha]
      exact ⟨Int.natCast_nonneg v, by exact_mod_cast hv⟩
    refine ⟨aap_reply _ _ _ _, ?_⟩
    rw [dispatch_qsat [] _]
    dsimp only
    rw [aap_light]
    dsimp only
    rw [if_pos hcond, ha, snprintf_small cmd_sat v rfl (by omega)]
    simp [cmd_sat]

/-- C4 witness: the round trip evaluated at `hue 200` from the initial
machine state: `hue 200` replies nothing, then `?hue` replies `hue 200\n`. -/
theorem C4_roundtrip_witness :
    200 ≤ Param.hue.maxNat ∧
      ((parse_command (Param.hue.cmd ++ 32 :: decBytes 200) m0).reply = none ∧
        (parse_command (63 :: Param.hue.cmd)
            (parse_command (Param.hue.cmd ++ 32 :: decBytes 200) m0).machine).reply
          = some (Param.hue.cmd ++ 32 :: (decBytes 200 ++ [10]))) :=
  ⟨by decide, C4_roundtrip Param.hue 200 m0 (by decide)⟩

/-- C5 counterexample: the claim quantifies over every out-of-range
integer, but on the ATmega328p `atoi` wraps modulo 2^16: the argument of
`val 65636` reads back as 100, which passes the `0..100` range check, so
dispatching `val 65636` from the initial state overwrites the brightness
(0 becomes 100) instead of leaving it unchanged. -/
theorem C5_counterexample :
    decBytes 65636 = [54, 53, 54, 51, 54] ∧
      (100 : Int) < 65636 ∧ m0.light.value = 0 ∧
      (parse_command [118, 97, 108, 32, 54, 53, 54, 51, 54]
          m0).machine.light.value = 100 := by
  refine ⟨by decide, by norm_num, rfl, ?_⟩
  rw [dispatch_val [32, 54, 53, 54, 51, 54] m0, aap_light]
  have h : atoi [54, 53, 54, 51, 54] = 100 := by decide
  simp [h]

/-- C5 (amended): for every parameter `P` with maximum `M` and every
integer `v` within the AVR 16-bit `int` range (`-32768..32767`) with
`v < 0` or `v > M`, the setter line `P v` is recognized (the parsing
helper returns true), but it leaves the light state unchanged, sends no
reply and surfaces no error indicator.  Outside that range `atoi`'s
modulo-2^16 wrap can bring the argument back into `0..M` and overwrite
the field, as the counterexample shows. -/
theorem C5_out_of_range : ∀ (P : Param) (v : Int) (m : Machine),
    -32768 ≤ v → v ≤ 32767 → (v < 0 ∨ P.maxInt < v) →
    parse_command_int (P.cmd ++ 32 :: decBytesInt v) P.cmd (63 :: P.cmd)
        P.maxInt (P.get m.light) = (true, P.get m.light, none) ∧
    (parse_command (P.cmd ++ 32 :: decBytesInt v) m).machine.light = m.light ∧
    (parse_command (P.cmd ++ 32 :: decBytesInt v) m).reply = none := by
  intro P v m hlo hhi hv
  have ha : atoi ((32 :: decBytesInt v).drop 1) = v := by
    simpa using atoi_decBytesInt v hlo hhi
  cases P with
  | pwr =>
    simp only [Param.maxInt] at hv
    refine ⟨?_, ?_, ?_⟩
    · simp only [Param.cmd, Param.get, Param.maxInt]
      rw [pci_setter cmd_pwr (63 :: cmd_pwr) 1 m.light.power (decBytesInt v)]
      rw [if_neg (by rw [atoi_decBytesInt v hlo hhi]; omega)]
    · simp only [Param.cmd, cmd_pwr, List.cons_append, List.nil_append]
      rw [dispatch_pwr (32 :: decBytesInt v) m, aap_light]
      rw [if_neg (by rw [ha]; omega)]
    · simp only [Param.cmd, cmd_pwr, List.cons_append, List.nil_append]
      rw [dispatch_pwr (32 :: decBytesInt v) m, aap_reply]
  | val =>
    simp only [Param.maxInt] at hv
    refine ⟨?_, ?_, ?_⟩
    · simp only [Param.cmd, Param.get, Param.maxInt]
      rw [pci_setter cmd_val (63 :: cmd_val) 100 m.light.value (decBytesInt v)]
      rw [if_neg (by rw [atoi_decBytesInt v hlo hhi]; omega)]
    · simp only [Param.cmd, cmd_val, List.cons_append, List.nil_append]
      rw [dispatch_val (32 :: decBytesInt v) m, aap_light]
      rw [if_neg (by rw [ha]; omega)]
    · simp only [Param.cmd, cmd_val, List.cons_append, List.nil_append]
      rw [dispatch_val (32 :: decBytesInt v) m, aap_reply]
  | hue =>
    simp only [Param.maxInt] at hv
    refine ⟨?_, ?_, ?_⟩
    · simp only [Param.cmd, Param.get, Param.maxInt]
      rw [pci_setter cmd_hue (63 :: cmd_hue) 360 m.light.hue (decBytesInt v)]
      rw [if_neg (by rw [atoi_decBytesInt v hlo hhi]; omega)]
    · simp only [Param.cmd, cmd_hue, List.cons_append, List.nil_append]
      rw [dispatch_hue (32 :: decBytesInt v) m, aap_light]
      rw [if_neg (by rw [ha]; omega)]
    · simp only [Param.cmd, cmd_hue, List.cons_append, List.nil_append]
      rw [dispatch_hue (32 :: decBytesInt v) m, aap_reply]
  | sat =>
    simp only [Param.maxInt] at hv
    refine ⟨?_, ?_, ?_⟩
    · simp only [Param.cmd, Param.get, Param.maxInt]
      rw [pci_setter cmd_sat (63 :: cmd_sat) 100 m.light.saturation
        (decBytesInt v)]
      rw [if_neg (by rw [atoi_decBytesInt v hlo hhi]; omega)]
    · simp only [Param.cmd, cmd_sat, List.cons_append, List.nil_append]
      rw [dispatch_sat (32 :: decBytesInt v) m, aap_light]
      rw [if_neg (by rw [ha]; omega)]
    · simp only [Param.cmd, cmd_sat, List.cons_append, List.nil_append]
      rw [dispatch_sat (32 :: decBytesInt v) m, aap_reply]

/-- C5 witness: the out-of-range setter `val 101` (within the 16-bit
`int` range) evaluated from the initial machine state. -/
theorem C5_out_of_range_witness :
    ((-32768 : Int) ≤ 101 ∧ (101 : Int) ≤ 32767 ∧
        ((101 : Int) < 0 ∨ Param.val.maxInt < 101)) ∧
      (parse_command_int (Param.val.cmd ++ 32 :: decBytesInt 101) Param.val.cmd
          (63 :: Param.val.cmd) Param.val.maxInt (Param.val.get m0.light)
        = (true, Param.val.get m0.light, none) ∧
      (parse_command (Param.val.cmd ++ 32 :: decBytesInt 101) m0).machine.light
        = m0.light ∧
      (parse_command (Param.val.cmd ++ 32 :: decBytesInt 101) m0).reply = none) :=
  ⟨⟨by norm_num, by norm_num, Or.inr (by decide)⟩,
    C5_out_of_range Param.val 101 m0 (by norm_num) (by norm_num)
      (Or.inr (by decide))⟩

/-- C6: fading from black to white with `FADE_STEPS = 255`: the channel
value written on the k-th tick is exactly `k` (the exact value of
`round(255 * k / 255)`), every channel is monotonically non-decreasing over
the ticks, the output is exactly white on the tick that brings the step
counter to 0, and black never reappears after the first tick. -/
theorem C6_fade_interpolation : ∀ k j : Nat, 1 ≤ k → 1 ≤ j → j ≤ k →
    (c6run k).2 = ⟨min k 255, min k 255, min k 255⟩ ∧
    ((c6run j).2.r ≤ (c6run k).2.r ∧ (c6run j).2.g ≤ (c6run k).2.g ∧
      (c6run j).2.b ≤ (c6run k).2.b) ∧
    ((c6run 255).1.step = 0 ∧ (c6run 255).2 = ⟨255, 255, 255⟩) ∧
    (c6run k).2 ≠ ⟨0, 0, 0⟩ := by
  intro k j hk hj hjk
  have hval : ∀ i : Nat, 1 ≤ i →
      (c6run i).2 = ⟨min i 255, min i 255, min i 255⟩ := by
    intro i hi
    rcases le_or_lt i 255 with h | h
    · rw [c6run_formula i hi h]
      simp [Nat.min_eq_left h]
    · rw [c6run_ge i (by omega)]
      simp [Nat.min_eq_right (by omega : 255 ≤ i)]
  have h255 : (c6run 255).1.step = 0 ∧ (c6run 255).2 = ⟨255, 255, 255⟩ := by
    rw [c6run_formula 255 (by norm_num) le_rfl]
    norm_num
  refine ⟨hval k hk, ?_, h255, ?_⟩
  · rw [hval k hk, hval j hj]
    dsimp only
    refine ⟨?_, ?_, ?_⟩ <;> omega
  · rw [hval k hk]
    intro he
    rw [rgb.mk.injEq] at he
    omega

/-- C6 witness: the fade scenario evaluated at ticks 3 and 2. -/
theorem C6_fade_interpolation_witness :
    (1 ≤ 3 ∧ 1 ≤ 2 ∧ 2 ≤ 3) ∧
      ((c6run 3).2 = ⟨min 3 255, min 3 255, min 3 255⟩ ∧
        ((c6run 2).2.r ≤ (c6run 3).2.r ∧ (c6run 2).2.g ≤ (c6run 3).2.g ∧
          (c6run 2).2.b ≤ (c6run 3).2.b) ∧
        ((c6run 255).1.step = 0 ∧ (c6run 255).2 = ⟨255, 255, 255⟩) ∧
        (c6run 3).2 ≠ ⟨0, 0, 0⟩) :=
  ⟨by norm_num, C6_fade_interpolation 3 2 (by norm_num) (by norm_num) (by norm_num)⟩

/-- C7: re-arming a fade while `remainingSteps > 0`: the armed transition
resets the counter to `FADE_STEPS`, the new start is the PWM output at the
moment of re-arm (not the prior transition's start), the new end is the new
target, and the output of the re-arming tick itself lies channelwise between
that snapshot and the new end color. -/
theorem C7_rearm : ∀ (fs : FadeState) (pwm target : rgb), 0 < fs.step →
    (fade_arm target pwm).step = FADE_STEPS ∧
    (fade_light true target fs pwm).1.prev = pwm ∧
    (fade_light true target fs pwm).1.next = target ∧
    (fade_light true target fs pwm).1.step = FADE_STEPS - 1 ∧
    (min pwm.r target.r ≤ (fade_light true target fs pwm).2.r ∧
      (fade_light true target fs pwm).2.r ≤ max pwm.r target.r) ∧
    (min pwm.g target.g ≤ (fade_light true target fs pwm).2.g ∧
      (fade_light true target fs pwm).2.g ≤ max pwm.g target.g) ∧
    (min pwm.b target.b ≤ (fade_light true target fs pwm).2.b ∧
      (fade_light true target fs pwm).2.b ≤ max pwm.b target.b) := by
  intro fs pwm target _
  have hfl := fade_light_step true target fs pwm (fade_arm target pwm) rfl
    (by simp [fade_arm, FADE_STEPS])
  rw [hfl]
  dsimp only [fade_arm]
  have h0 : (0 : ℚ) ≤ ((FADE_STEPS : ℚ) - ((FADE_STEPS - 1 : Nat) : ℚ))
      / (FADE_STEPS : ℚ) := by
    norm_num [FADE_STEPS]
  have h1 : ((FADE_STEPS : ℚ) - ((FADE_STEPS - 1 : Nat) : ℚ))
      / (FADE_STEPS : ℚ) ≤ 1 := by
    norm_num [FADE_STEPS]
  exact ⟨rfl, rfl, rfl, rfl, interp_between _ _ _ h0 h1,
    interp_between _ _ _ h0 h1, interp_between _ _ _ h0 h1⟩

/-- C7 witness: re-arming a mid-flight fade (7 steps remaining) toward a
new target from the current PWM output. -/
theorem C7_rearm_witness :
    0 < (FadeState.mk 7 ⟨1, 2, 3⟩ ⟨4, 5, 6⟩).step ∧
      ((fade_arm ⟨0, 200, 30⟩ ⟨10, 20, 30⟩).step = FADE_STEPS ∧
        (fade_light true ⟨0, 200, 30⟩ ⟨7, ⟨1, 2, 3⟩, ⟨4, 5, 6⟩⟩
            ⟨10, 20, 30⟩).1.prev = ⟨10, 20, 30⟩ ∧
        (fade_light true ⟨0, 200, 30⟩ ⟨7, ⟨1, 2, 3⟩, ⟨4, 5, 6⟩⟩
            ⟨10, 20, 30⟩).1.next = ⟨0, 200, 30⟩ ∧
        (fade_light true ⟨0, 200, 30⟩ ⟨7, ⟨1, 2, 3⟩, ⟨4, 5, 6⟩⟩
            ⟨10, 20, 30⟩).1.step = FADE_STEPS - 1 ∧
        (min 10 0 ≤ (fade_light true ⟨0, 200, 30⟩ ⟨7, ⟨1, 2, 3⟩, ⟨4, 5, 6⟩⟩
            ⟨10, 20, 30⟩).2.r ∧
          (fade_light true ⟨0, 200, 30⟩ ⟨7, ⟨1, 2, 3⟩, ⟨4, 5, 6⟩⟩
            ⟨10, 20, 30⟩).2.r ≤ max 10 0) ∧
        (min 20 200 ≤ (fade_light true ⟨0, 200, 30⟩ ⟨7, ⟨1, 2, 3⟩, ⟨4, 5, 6⟩⟩
            ⟨10, 20, 30⟩).2.g ∧
          (fade_light true ⟨0, 200, 30⟩ ⟨7, ⟨1, 2, 3⟩, ⟨4, 5, 6⟩⟩
            ⟨10, 20, 30⟩).2.g ≤ max 20 200) ∧
        (min 30 30 ≤ (fade_light true ⟨0, 200, 30⟩ ⟨7, ⟨1, 2, 3⟩, ⟨4, 5, 6⟩⟩
            ⟨10, 20, 30⟩).2.b ∧
          (fade_light true ⟨0, 200, 30⟩ ⟨7, ⟨1, 2, 3⟩, ⟨4, 5, 6⟩⟩
            ⟨10, 20, 30⟩).2.b ≤ max 30 30)) :=
  ⟨by norm_num, C7_rearm ⟨7, ⟨1, 2, 3⟩, ⟨4, 5, 6⟩⟩ ⟨10, 20, 30⟩ ⟨0, 200, 30⟩
    (by norm_num)⟩

theorem rx_terminate (line : List Nat) (t : Nat) (hlen : line.length = 31)
    (ht : t = 13 ∨ t = 10) :
    usart_rx_isr t ⟨line ++ [0], 31, false⟩ = ⟨line ++ [0], 0, true⟩ := by
  unfold usart_rx_isr
  rw [if_neg (by simp), if_pos ht]
  dsimp only
  have hset : (line ++ [0]).set 31 0 = line ++ [0] := by
    rw [← hlen, set_append_len]
    rfl
  rw [hset]

/-- C8: receive framing and truncation, from the fresh receive state.  A
line of exactly 31 (`capacity - 1`) non-terminator bytes followed by CR or
LF is delivered intact (the buffer holds the line followed by a NUL
terminator, and the ready flag is set); a line of 32 or more bytes is
delivered truncated to its first 31 bytes, still NUL-terminated; and for
any byte stream the buffer keeps its 32-byte length, the cursor stays
below the capacity (no out-of-bounds write), and no CR or LF byte is ever
stored in the buffer. -/
theorem C8_receive_framing : ∀ (line31 lineL : List Nat) (t : Nat) (s : List Nat),
    (∀ b ∈ line31, b ≠ 13 ∧ b ≠ 10) → line31.length = 31 →
    (∀ b ∈ lineL, b ≠ 13 ∧ b ≠ 10) → 32 ≤ lineL.length →
    (t = 13 ∨ t = 10) →
    rx_feed (line31 ++ [t]) rx0 = ⟨line31 ++ [0], 0, true⟩ ∧
    rx_feed (lineL ++ [t]) rx0 = ⟨lineL.take 31 ++ [0], 0, true⟩ ∧
    ((rx_feed s rx0).buf.length = 32 ∧ (rx_feed s rx0).cnt ≤ 31 ∧
      13 ∉ (rx_feed s rx0).buf ∧ 10 ∉ (rx_feed s rx0).buf) := by
  intro line31 lineL t s h31 hlen31 hL hlenL ht
  have h0 : rx0 = ⟨([] : List Nat) ++ List.replicate (32 - ([] : List Nat).length) 0,
      ([] : List Nat).length, false⟩ := rfl
  refine ⟨?_, ?_, rx_feed_inv s rx0 (by decide)⟩
  · rw [rx_feed_append, h0, rx_feed_fill line31 [] h31 (by simp [hlen31])]
    simp only [List.nil_append, List.length_nil, Nat.zero_add, hlen31]
    rw [(by norm_num : (32 : Nat) - 31 = 1), List.replicate_one]
    show usart_rx_isr t ⟨line31 ++ [0], 31, false⟩ = ⟨line31 ++ [0], 0, true⟩
    exact rx_terminate line31 t hlen31 ht
  · have htk : (lineL.take 31).length = 31 := by
      simp only [List.length_take]
      omega
    have htk2 : ∀ b ∈ lineL.take 31, b ≠ 13 ∧ b ≠ 10 :=
      fun b hb => hL b (List.take_subset 31 lineL hb)
    have hdr : ∀ b ∈ lineL.drop 31, b ≠ 13 ∧ b ≠ 10 :=
      fun b hb => hL b (List.drop_subset 31 lineL hb)
    have hrw : rx_feed (lineL ++ [t]) rx0
        = rx_feed ((lineL.take 31 ++ lineL.drop 31) ++ [t]) rx0 := by
      rw [List.take_append_drop]
    rw [hrw, List.append_assoc, rx_feed_append, h0,
      rx_feed_fill (lineL.take 31) [] htk2 (by simp [htk])]
    simp only [List.nil_append, List.length_nil, Nat.zero_add, htk]
    rw [(by norm_num : (32 : Nat) - 31 = 1), List.replicate_one, rx_feed_append,
      rx_feed_buffer_full (lineL.drop 31) (lineL.take 31 ++ [0]) hdr]
    show usart_rx_isr t ⟨lineL.take 31 ++ [0], 31, false⟩
      = ⟨lineL.take 31 ++ [0], 0, true⟩
    exact rx_terminate (lineL.take 31) t htk ht

/-- C8 witness: a 31-byte line of `A`s terminated by CR is delivered
intact; a 40-byte line of `B`s is truncated to 31 bytes; the invariant
holds after the stream `A B CR`. -/
theorem C8_receive_framing_witness :
    rx_feed (List.replicate 31 65 ++ [13]) rx0
        = ⟨List.replicate 31 65 ++ [0], 0, true⟩ ∧
      rx_feed (List.replicate 40 66 ++ [13]) rx0
        = ⟨(List.replicate 40 66).take 31 ++ [0], 0, true⟩ ∧
      ((rx_feed [65, 66, 13] rx0).buf.length = 32 ∧
        (rx_feed [65, 66, 13] rx0).cnt ≤ 31 ∧
        13 ∉ (rx_feed [65, 66, 13] rx0).buf ∧
        10 ∉ (rx_feed [65, 66, 13] rx0).buf) :=
  C8_receive_framing (List.replicate 31 65) (List.replicate 40 66) 13 [65, 66, 13]
    (by decide) (by decide) (by decide) (by decide) (by decide)

/-- C9: transmit contention.  While the transmit-ready flag is unset (a
previous transmission still draining), `uart_send` returns failure
immediately and leaves the whole transmit state — in particular the
in-flight buffer — unchanged byte for byte.  When the flag is set, it
clears the flag, copies the string into the buffer (`strncpy` semantics,
truncated to the 32-byte capacity) and arms the `UDRE` interrupt,
returning success. -/
theorem C9_send_contention : ∀ (src buf : List Nat) (udrie : Bool) (pos : Nat),
    uart_send src ⟨false, buf, udrie, pos⟩ = (false, ⟨false, buf, udrie, pos⟩) ∧
    uart_send src ⟨true, buf, udrie, pos⟩
      = (true, ⟨false, strncpy_model src UART_BUFFER_SIZE, true, pos⟩) := by
  intro src buf udrie pos
  constructor
  · unfold uart_send
    rw [if_pos (by simp)]
  · unfold uart_send
    rw [if_neg (by simp)]

/-- C10: a setter line whose argument is not a valid integer is
indistinguishable from an explicit argument of 0: `val abc` and a bare
`val` dispatch exactly like `val 0` — `atoi` yields 0, which passes the
range check, so the brightness is overwritten with 0 and a fade is armed. -/
theorem C10_malformed_argument : ∀ m : Machine,
    parse_command [118, 97, 108, 32, 97, 98, 99] m
      = parse_command [118, 97, 108, 32, 48] m ∧
    parse_command [118, 97, 108] m = parse_command [118, 97, 108, 32, 48] m ∧
    (parse_command [118, 97, 108, 32, 48] m).machine.light.value = 0 ∧
    (parse_command [118, 97, 108, 32, 48] m).armed = true := by
  intro m
  have h1 : atoi ([32, 97, 98, 99].drop 1) = 0 := by decide
  have h2 : atoi (([] : List Nat).drop 1) = 0 := by decide
  have h3 : atoi ([32, 48].drop 1) = 0 := by decide
  refine ⟨?_, ?_, ?_, ?_⟩
  · rw [dispatch_val [32, 97, 98, 99] m, dispatch_val [32, 48] m, h1, h3]
    exact aap_congr _ _ _ _ _ rfl
  · rw [dispatch_val [] m, dispatch_val [32, 48] m, h2, h3]
    exact aap_congr _ _ _ _ _ rfl
  · rw [dispatch_val [32, 48] m, aap_light, h3]
    norm_num
  · rw [dispatch_val [32, 48] m, aap_armed]
    decide
